import Mathlib

/-
  Verification development for the irdest router core.

  Shallow embedding of the subsystems under scrutiny:
  * the collector worker (`join_frames`, ratman/src/core/collector/worker.rs),
  * the frame journal (ratman/src/core/journal.rs),
  * the UDP socket receive loop, Data arm (netmod-udp/src/socket.rs),
  * the IPC daemon authentication handshake and relay loop
    (ratman/src/daemon/parse.rs, ratman/src/daemon/mod.rs),
  * the symmetric cipher wrapper (utils/alexandria/src/crypto/aes.rs).

  Pure functions of the source become Lean functions; state is passed
  explicitly; Rust panics (`unwrap` on `None`/`Err`) become an explicit
  `panicked` outcome; machine integers are naturals with `% 2^32` where the
  source casts to `u32`.
-/

namespace Irdest

/-- 256-bit opaque identifier (node address, message id, sequence id); the
source compares identities only for equality and ordering of raw bytes, so the
opaque value is modelled as a natural number. -/
abbrev Identity := Nat

/-- `Recipient`: unicast `User(Identity)` or network-wide `Flood`. -/
inductive Recipient where
  | user (id : Identity)
  | flood
deriving DecidableEq

/-- Frame sequence metadata (`seq` field of a netmod `Frame`):
sequence id, `num : u32`, and the `next` continuation marker. -/
structure SeqData where
  seqid : Identity
  num : Nat
  next : Option Identity
deriving DecidableEq

/-- Wire-level frame: sender, recipient, sequence metadata and payload slice. -/
structure Frame where
  sender : Identity
  recipient : Recipient
  seq : SeqData
  payload : List Nat
deriving DecidableEq

/-- Time signature carried by a message: `sent` stamp set by the sender and a
`received` stamp set by the collector on completion. -/
structure TimeSig where
  sent : Nat
  received : Option Nat
deriving DecidableEq

/-- Modelled from the spec: `TimeSig::receive` lives in the `types` crate,
which is not under src/; per the spec the collector "stamps
`timesig.received = now`" on completion.  The clock reading is an explicit
argument. -/
def TimeSig.receive (t : TimeSig) (now : Nat) : TimeSig :=
  { t with received := some now }

/-- The inner payload envelope that a message serialises to before slicing:
`payload`, `timesig`, `sign` (ratman `Payload`). -/
structure Payload where
  payload : List Nat
  timesig : TimeSig
  sign : List Nat
deriving DecidableEq

/-- Application-level message (ratman `Message`). -/
structure Message where
  id : Identity
  sender : Identity
  recipient : Recipient
  payload : List Nat
  timesig : TimeSig
  sign : List Nat
deriving DecidableEq

/- ---------------------------------------------------------------------
   bincode codec for the Payload envelope
--------------------------------------------------------------------- -/

/-- Length prefix for a byte sequence. -/
def encBytes (l : List Nat) : List Nat := l.length :: l

/-- Encoding of an `Option` field (tag byte then value). -/
def encOptNat : Option Nat → List Nat
  | none => [0]
  | some x => [1, x]

/-- Modelled from the spec: `bincode::serialize` for the `Payload` envelope
(bincode is an external crate).  It is modelled as a concrete executable
length-prefixed codec with the standard codec contract: deserialising a
serialised value succeeds and returns that value, and malformed byte strings
fail to deserialise. -/
def bincodeSerialize (p : Payload) : List Nat :=
  encBytes p.payload ++ (p.timesig.sent :: encOptNat p.timesig.received) ++ encBytes p.sign

/-- Decode a length-prefixed byte sequence, returning the remaining input. -/
def decBytes : List Nat → Option (List Nat × List Nat)
  | [] => none
  | n :: rest => if n ≤ rest.length then some (rest.take n, rest.drop n) else none

/-- Decode an optional field, returning the remaining input. -/
def decOptNat : List Nat → Option (Option Nat × List Nat)
  | 0 :: rest => some (none, rest)
  | 1 :: x :: rest => some (some x, rest)
  | _ => none

/-- Modelled from the spec: `bincode::deserialize` for the `Payload` envelope;
inverse of `bincodeSerialize`, failing on malformed input (for example the
empty byte string). -/
def bincodeDeserialize (l : List Nat) : Option Payload :=
  match decBytes l with
  | none => none
  | some (pl, r1) =>
    match r1 with
    | [] => none
    | sent :: r2 =>
      match decOptNat r2 with
      | none => none
      | some (recv, r3) =>
        match decBytes r3 with
        | none => none
        | some (sign, _) => some ⟨pl, ⟨sent, recv⟩, sign⟩

/- ---------------------------------------------------------------------
   Collector worker: join_frames
--------------------------------------------------------------------- -/

/-- Modelled from the spec: `SeqBuilder::restore` (netmod crate, not under
src/) concatenates the payloads of the buffered frames in buffer order; the
caller keeps the buffer sorted by `seq.num`, so this is ascending-`num`
concatenation. -/
def SeqBuilder.restore (buf : List Frame) : List Nat :=
  (buf.map (fun f => f.payload)).flatten

/-- Stable insertion of a frame into a buffer ordered by `seq.num`; a frame
inserted later is placed after previously inserted frames of equal `num`. -/
def insertByNum (f : Frame) : List Frame → List Frame
  | [] => [f]
  | g :: rest =>
    if g.seq.num ≤ f.seq.num then g :: insertByNum f rest else f :: g :: rest

/-- Model of `buf.sort_by(|a, b| a.seq.num.cmp(&b.seq.num))`.  Rust's slice
sort is stable, and all stable sorts agree on their output, so stable
insertion sort is used as the executable model. -/
def sortByNum : List Frame → List Frame
  | [] => []
  | f :: rest => insertByNum f (sortByNum rest)

/-- The "inductive sequence number property" fold of `join_frames`:
`frame.seq.num == i as u32` for each buffer index `i` (the `usize → u32` cast
is `% 2^32`). -/
def denseFrom (i : Nat) : List Frame → Bool
  | [] => true
  | f :: rest => (f.seq.num == i % 4294967296) && denseFrom (i + 1) rest

/-- Result of one `join_frames` call: `None` (frame parked), `Some(message)`
(sequence completed), or a panic of the `.unwrap()` on
`bincode::deserialize`. -/
inductive JoinResult where
  | parked
  | completed (m : Message)
  | panicked
deriving DecidableEq

/-- The check-and-build part of `join_frames`, applied to the buffer after
push and sort: if the last frame still has `seq.next = Some(_)` park;
otherwise test the dense sequence number property; on success restore the
payload, deserialise it (`.unwrap()` panics on failure), stamp the receive
time and build the `Message` from the first buffered frame's header. -/
def joinCheck (now : Nat) : List Frame → JoinResult
  | [] => .panicked
  | first :: rest =>
    if ((first :: rest).getLast (List.cons_ne_nil first rest)).seq.next.isSome then
      .parked
    else if denseFrom 0 (first :: rest) then
      match bincodeDeserialize (SeqBuilder.restore (first :: rest)) with
      | some p =>
        .completed
          { id := first.seq.seqid
            sender := first.sender
            recipient := first.recipient
            payload := p.payload
            timesig := p.timesig.receive now
            sign := p.sign }
      | none => .panicked
    else .parked

/-- Shallow embedding of `join_frames` (collector worker): push the new frame
into the buffer, sort by `seq.num`, then run the completion check.  Returns
the updated buffer together with the call's result. -/
def joinFrames (now : Nat) (buf : List Frame) (new : Frame) : List Frame × JoinResult :=
  (sortByNum (buf ++ [new]), joinCheck now (sortByNum (buf ++ [new])))

/-- Feed a list of frames one at a time into a collector worker buffer
(iterated `join_frames`), returning the final buffer and the list of per-call
results. -/
def feedAll (now : Nat) (buf : List Frame) : List Frame → List Frame × List JoinResult
  | [] => (buf, [])
  | f :: rest =>
    ((feedAll now (joinFrames now buf f).1 rest).1,
      (joinFrames now buf f).2 :: (feedAll now (joinFrames now buf f).1 rest).2)

/-- Number of completions among a list of `join_frames` results. -/
def countCompletions (rs : List JoinResult) : Nat :=
  rs.countP (fun r => match r with | .completed _ => true | _ => false)

/-- Buffer order used by the collector: ascending `seq.num`. -/
def numLE (a b : Frame) : Prop := a.seq.num ≤ b.seq.num

/-- A frame list holds two frames with the same sequence number. -/
def hasDupNum (l : List Frame) : Prop := ¬ (l.map (fun f => f.seq.num)).Nodup

/- ---------------------------------------------------------------------
   Journal
--------------------------------------------------------------------- -/

/-- Remote frame journal: the set of known sequence ids (a `BTreeSet<SeqId>`
behind a lock). -/
structure Journal where
  known : Finset Identity
deriving DecidableEq

/-- Fresh journal (empty seen set). -/
def Journal.empty : Journal := ⟨∅⟩

/-- `Journal::queue`: the source body is empty — the frame is dropped and the
journal is left unchanged. -/
def Journal.queue (j : Journal) (_f : Frame) : Journal := j

/-- `Journal::save`: insert the sequence id into the known set. -/
def Journal.save (j : Journal) (fid : Identity) : Journal := ⟨insert fid j.known⟩

/-- `Journal::unknown`: true iff the sequence id is not in the known set. -/
def Journal.unknown (j : Journal) (fid : Identity) : Bool := !(decide (fid ∈ j.known))

/-- The journal's mutating operations, for stating insertion-only facts. -/
inductive JournalOp where
  | queue (f : Frame)
  | save (fid : Identity)

/-- Run a list of journal operations. -/
def Journal.apply (j : Journal) : List JournalOp → Journal
  | [] => j
  | .queue f :: rest => (j.queue f).apply rest
  | .save fid :: rest => (j.save fid).apply rest

/- ---------------------------------------------------------------------
   UDP socket receive loop, Data arm
--------------------------------------------------------------------- -/

/-- UDP peer handle: `{ ip, port }`. -/
structure Peer where
  ip : Nat
  port : Nat
deriving DecidableEq

/-- Modelled from the spec: `AddrTable` (netmod-udp addrs.rs is not under
src/) is a bidirectional map between peers and local peer-ids; only the
lookup `id(peer) → Option<peer-id>` is needed here, modelled over an
association list. -/
def AddrTable := List (Peer × Nat)

/-- `AddrTable::id`: look up the local peer-id of a peer. -/
def AddrTable.id (t : AddrTable) (p : Peer) : Option Nat :=
  (t.find? (fun e => decide (e.1 = p))).map (fun e => e.2)

/-- Netmod delivery target attached to an inbound frame. -/
inductive Target where
  | single (id : Nat)
  | flood
deriving DecidableEq

/-- `FrameExt`: an inbound frame together with its delivery target. -/
structure FrameExt where
  frame : Frame
  target : Target
deriving DecidableEq

/-- Outcome of handling one `Envelope::Data` datagram: the new inbox plus the
wake flag, or the panic of `table.id(peer).unwrap()`. -/
inductive DataStep where
  | ok (inbox : List FrameExt) (woken : Bool)
  | panicked
deriving DecidableEq

/-- Shallow embedding of the `Envelope::Data` arm of `Socket::incoming_handle`:
resolve the source peer through the address table — the source calls
`.unwrap()` on the lookup, so an unknown peer panics the receive task — and
otherwise append `(frame, Single(peer-id))` to the inbox and wake the
pending `next()` caller (`Notify::wake`). -/
def incomingData (table : AddrTable) (inbox : List FrameExt) (peer : Peer)
    (frame : Frame) : DataStep :=
  match table.id peer with
  | some i => .ok (inbox ++ [⟨frame, .single i⟩]) true
  | none => .panicked

/- ---------------------------------------------------------------------
   IPC daemon: authentication handshake
--------------------------------------------------------------------- -/

/-- Protobuf `Setup_Type`. -/
inductive SetupType where
  | online
  | anonymous
  | onlineAck
deriving DecidableEq

/-- Protobuf `Setup` message: type, optional `_id`, optional `_token`. -/
structure Setup where
  fieldType : SetupType
  idOpt : Option Identity
  tokenOpt : Option (List Nat)
deriving DecidableEq

/-- The four arms of the IPC wire envelope (`ApiMessageEnum`); the non-setup
arms carry opaque payloads, which suffices for the handshake. -/
inductive ApiMessageEnum where
  | setup (s : Setup)
  | send (payload : List Nat)
  | recv (payload : List Nat)
  | peers (payload : List Nat)
deriving DecidableEq

/-- The parse error surfaced by the handshake. -/
inductive ParseError where
  | invalidAuth
deriving DecidableEq

/-- Modelled from the spec: the router bookkeeping touched by the handshake
(the `Router` type is not under src/) — `add_user(id)` registers a locally
hosted address and `online(id)` brings it online. -/
structure Router where
  users : Finset Identity
  online : Finset Identity
deriving DecidableEq

/-- `Router::add_user`. -/
def Router.addUser (r : Router) (id : Identity) : Router :=
  { r with users := insert id r.users }

/-- `Router::online`. -/
def Router.setOnline (r : Router) (id : Identity) : Router :=
  { r with online := insert id r.online }

/-- Result of `handle_auth`: the returned `(Identity, token)` pair (or
`None` for anonymous sessions, or the error), the router state after the
handshake, and the ids carried by `online_ack` responses written to the
stream. -/
structure AuthOutcome where
  result : Except ParseError (Option (Identity × List Nat))
  router : Router
  acks : List Identity

/-- Shallow embedding of `handle_auth`: the first message (`None` models an
empty `msg.inner`, which `ok_or` turns into `InvalidAuth`) is matched —
`setup{ONLINE}` with both id and token brings that id online and acks it;
`setup{ONLINE}` with neither generates a fresh identity (`Identity::random`
passed explicitly), registers it, brings it online and acks it;
`setup{ANONYMOUS}` is accepted with no id; everything else is
`InvalidAuth`. -/
def handle_auth (r : Router) (freshId : Identity) (firstMsg : Option ApiMessageEnum) :
    AuthOutcome :=
  match firstMsg with
  | some (.setup s) =>
    if s.fieldType = SetupType.online then
      match s.idOpt, s.tokenOpt with
      | some id, some _ => ⟨.ok (some (id, [])), (r.addUser id).setOnline id, [id]⟩
      | none, none =>
        ⟨.ok (some (freshId, [])), (r.addUser freshId).setOnline freshId, [freshId]⟩
      | _, _ => ⟨.error .invalidAuth, r, []⟩
    else if s.fieldType = SetupType.anonymous then ⟨.ok none, r, []⟩
    else ⟨.error .invalidAuth, r, []⟩
  | _ => ⟨.error .invalidAuth, r, []⟩

/-- The first messages the handshake accepts (the three accepted table rows);
everything else must fail with `InvalidAuth`. -/
def authAccepted : Option ApiMessageEnum → Bool
  | some (.setup s) =>
    (decide (s.fieldType = SetupType.online)
        && ((s.idOpt.isSome && s.tokenOpt.isSome) || (s.idOpt.isNone && s.tokenOpt.isNone)))
      || decide (s.fieldType = SetupType.anonymous)
  | _ => false

/- ---------------------------------------------------------------------
   IPC daemon: relay loop
--------------------------------------------------------------------- -/

/-- The `Receive` wire envelope built by `run_relay`: id, sender, optional
recipient (`None` when flooded), payload, timesig and signature. -/
structure Receive where
  id : Identity
  sender : Identity
  recipient : Option Identity
  payload : List Nat
  timesig : TimeSig
  sign : List Nat
deriving DecidableEq

/-- The envelope construction at the top of the `run_relay` loop body. -/
def buildReceive (m : Message) : Receive :=
  { id := m.id
    sender := m.sender
    recipient := match m.recipient with | .user i => some i | .flood => none
    payload := m.payload
    timesig := m.timesig
    sign := m.sign }

/-- Modelled from the spec: the online map `Identity → session handle`
(daemon state.rs is not under src/), as an association list with session
handles as numbers. -/
def OnlineMap := List (Identity × Nat)

/-- Lookup of a session handle in the online map. -/
def OnlineMap.get (m : OnlineMap) (id : Identity) : Option Nat :=
  (m.find? (fun e => decide (e.1 = id))).map (fun e => e.2)

/-- One iteration of `run_relay` for a delivered message: the writes
attempted (session handle, envelope) and the sessions whose write failed
(each merely logged; the loop over the remaining sessions continues).
`writeOk s` models whether `forward_recv` on session `s` succeeds. -/
def relayStep (online : OnlineMap) (writeOk : Nat → Bool) (m : Message) :
    List (Nat × Receive) × List Nat :=
  match m.recipient with
  | .user id =>
    match online.get id with
    | some s => ([(s, buildReceive m)], if writeOk s then [] else [s])
    | none => ([], [])
  | .flood =>
    (online.map (fun e => (e.2, buildReceive m)),
      (online.filter (fun e => !writeOk e.2)).map (fun e => e.2))

/- ---------------------------------------------------------------------
   Symmetric cipher wrapper (alexandria aes.rs)
--------------------------------------------------------------------- -/

/-- `CipherText`: nonce bytes plus encrypted data. -/
structure CipherText where
  nonce : List Nat
  data : List Nat
deriving DecidableEq

/-- The alexandria error surfaced by `Key::open`. -/
inductive AlexError where
  | internalError (msg : String)
deriving DecidableEq

/-- `Nonce::from_slice`: succeeds exactly on byte strings of the secretbox
nonce length (24). -/
def Nonce.from_slice (l : List Nat) : Option (List Nat) :=
  if l.length = 24 then some l else none

/-- Modelled from the spec: the external symmetric primitive (sodiumoxide
`secretbox::seal` / `open`), which the spec treats as an external interface;
`sealBytes message nonce key` encrypts and `openBytes cipher nonce key`
decrypts (or fails). -/
structure SymCipher (K : Type) where
  sealBytes : List Nat → List Nat → K → List Nat
  openBytes : List Nat → List Nat → K → Option (List Nat)

/-- Shallow embedding of `Key::seal`: encode the value (the `Encode` trait is
passed explicitly), encrypt it under a generated nonce (passed explicitly),
and return a `CipherText` carrying the nonce bytes verbatim. -/
def Key.seal {K T : Type} (c : SymCipher K) (encode : T → Except AlexError (List Nat))
    (key : K) (nonce : List Nat) (data : T) : Except AlexError CipherText :=
  match encode data with
  | .error e => .error e
  | .ok encoded => .ok { nonce := nonce, data := c.sealBytes encoded nonce key }

/-- Shallow embedding of `Key::open`: rebuild the nonce from the stored bytes
(failing with an internal error if malformed), decrypt (failing with an
internal error on decryption failure), then decode. -/
def Key.open' {K T : Type} (c : SymCipher K) (decode : List Nat → Except AlexError T)
    (key : K) (ct : CipherText) : Except AlexError T :=
  match Nonce.from_slice ct.nonce with
  | none => .error (.internalError "Failed to read nonce!")
  | some n =>
    match c.openBytes ct.data n key with
    | none => .error (.internalError "Failed to decrypt data")
    | some clear => decode clear

/- ---------------------------------------------------------------------
   Concrete inputs used by witnesses and counterexamples
--------------------------------------------------------------------- -/

/-- A concrete frame (seqid 42) for the journal scenarios. -/
def frJ : Frame := ⟨1, .flood, ⟨42, 0, none⟩, []⟩

/-- A concrete UDP peer. -/
def peerK : Peer := ⟨101, 12322⟩

/-- A concrete frame arriving on the UDP socket. -/
def frU : Frame := ⟨3, .user 4, ⟨8, 0, none⟩, [1]⟩

/-- Three-frame sequence (seqid 9) whose payload concatenation
`[4,7,7,7,7,5,0,0]` is `bincodeSerialize ⟨[7,7,7,7], ⟨5, none⟩, []⟩`:
frame 0 of the duplicate-suppression scenario. -/
def fC2a : Frame := ⟨1, .user 2, ⟨9, 0, some 9⟩, [4, 7, 7]⟩

/-- Frame 1 of the duplicate-suppression scenario (the frame fed twice). -/
def fC2b : Frame := ⟨1, .user 2, ⟨9, 1, some 9⟩, [7, 7, 5]⟩

/-- Frame 2 (terminal) of the duplicate-suppression scenario. -/
def fC2c : Frame := ⟨1, .user 2, ⟨9, 2, none⟩, [0, 0]⟩

/-- A complete single-frame set whose concatenated payload (the empty byte
string) does not deserialise as a `Payload`. -/
def fC3 : Frame := ⟨1, .user 2, ⟨4, 0, none⟩, []⟩

/-- The payload envelope of the two-frame reassembly witness;
`bincodeSerialize PC1 = [1,9,3,0,0]`. -/
def PC1 : Payload := ⟨[9], ⟨3, none⟩, []⟩

/-- Frame 0 of the reassembly witness (carries `[1,9,3]`). -/
def wfA : Frame := ⟨1, .user 2, ⟨5, 0, some 5⟩, [1, 9, 3]⟩

/-- Frame 1 (terminal) of the reassembly witness (carries `[0,0]`). -/
def wfB : Frame := ⟨1, .user 2, ⟨5, 1, none⟩, [0, 0]⟩

/-- A concrete message addressed to user 4, for the relay witness. -/
def mC7 : Message := ⟨10, 3, .user 4, [1, 2], ⟨0, some 1⟩, []⟩

/-- A concrete message addressed to user 7, for the offline-user witness. -/
def mC9 : Message := ⟨11, 3, .user 7, [9], ⟨0, some 1⟩, []⟩

/-- A concrete toy cipher satisfying the symmetric primitive contract, used
to instantiate the round-trip theorem. -/
def cipherW : SymCipher Unit :=
  ⟨fun msg _ _ => msg.reverse, fun ct _ _ => some ct.reverse⟩

/- ---------------------------------------------------------------------
   Helper lemmas: sorting
--------------------------------------------------------------------- -/

theorem insertByNum_perm (f : Frame) :
    ∀ l : List Frame, (insertByNum f l).Perm (f :: l)
  | [] => List.Perm.refl _
  | g :: rest => by
    by_cases h : g.seq.num ≤ f.seq.num
    · simp only [insertByNum, if_pos h]
      exact ((insertByNum_perm f rest).cons g).trans (List.Perm.swap f g rest)
    · simp only [insertByNum, if_neg h]
      exact List.Perm.refl _

theorem sortByNum_perm : ∀ l : List Frame, (sortByNum l).Perm l
  | [] => List.Perm.refl _
  | f :: rest =>
    (insertByNum_perm f (sortByNum rest)).trans ((sortByNum_perm rest).cons f)

theorem insertByNum_sorted (f : Frame) :
    ∀ l : List Frame, l.Pairwise numLE → (insertByNum f l).Pairwise numLE
  | [], _ => List.pairwise_singleton numLE f
  | g :: rest, h => by
    rcases List.pairwise_cons.mp h with ⟨hg, hrest⟩
    by_cases hle : g.seq.num ≤ f.seq.num
    · simp only [insertByNum, if_pos hle]
      refine List.pairwise_cons.mpr ⟨?_, insertByNum_sorted f rest hrest⟩
      intro x hx
      rcases List.mem_cons.mp ((insertByNum_perm f rest).mem_iff.mp hx) with rfl | hxr
      · exact hle
      · exact hg x hxr
    · simp only [insertByNum, if_neg hle]
      have hfg : f.seq.num ≤ g.seq.num := Nat.le_of_lt (Nat.lt_of_not_le hle)
      refine List.pairwise_cons.mpr ⟨?_, h⟩
      intro x hx
      rcases List.mem_cons.mp hx with rfl | hxr
      · exact hfg
      · exact Nat.le_trans hfg (hg x hxr)

theorem sortByNum_sorted : ∀ l : List Frame, (sortByNum l).Pairwise numLE
  | [] => List.Pairwise.nil
  | f :: rest => insertByNum_sorted f (sortByNum rest) (sortByNum_sorted rest)

/- ---------------------------------------------------------------------
   Helper lemmas: the dense sequence number check
--------------------------------------------------------------------- -/

theorem denseFrom_iff : ∀ (l : List Frame) (i : Nat), denseFrom i l = true ↔
    ∀ j (h : j < l.length), (l.get ⟨j, h⟩).seq.num = (i + j) % 4294967296
  | [], i => by simp [denseFrom]
  | f :: rest, i => by
    simp only [denseFrom, Bool.and_eq_true, beq_iff_eq]
    constructor
    · rintro ⟨h0, hrest⟩ j hj
      cases j with
      | zero => simpa using h0
      | succ k =>
        have hk := (denseFrom_iff rest (i + 1)).mp hrest k (Nat.lt_of_succ_lt_succ hj)
        have hidx : (f :: rest).get ⟨k + 1, hj⟩ = rest.get ⟨k, Nat.lt_of_succ_lt_succ hj⟩ := rfl
        rw [hidx, hk]
        congr 1
        omega
    · intro hall
      refine ⟨by simpa using hall 0 (Nat.succ_pos _), (denseFrom_iff rest (i + 1)).mpr ?_⟩
      intro k hk
      have h1 := hall (k + 1) (Nat.succ_lt_succ hk)
      have hidx : (f :: rest).get ⟨k + 1, Nat.succ_lt_succ hk⟩ = rest.get ⟨k, hk⟩ := rfl
      rw [hidx] at h1
      rw [h1]
      congr 1
      omega

theorem dense_sorted_get (b : List Frame) (hs : b.Pairwise numLE)
    (hd : denseFrom 0 b = true) : ∀ j (h : j < b.length), (b.get ⟨j, h⟩).seq.num = j := by
  have hlen : b.length ≤ 4294967296 := by
    by_contra hlen
    push_neg at hlen
    have h1 : 4294967295 < b.length := by omega
    have h2 : 4294967296 < b.length := hlen
    have e1 := (denseFrom_iff b 0).mp hd 4294967295 h1
    have e2 := (denseFrom_iff b 0).mp hd 4294967296 h2
    rw [Nat.zero_add, Nat.mod_eq_of_lt (by norm_num)] at e1
    rw [Nat.zero_add, Nat.mod_self] at e2
    have hle : numLE (b.get ⟨4294967295, h1⟩) (b.get ⟨4294967296, h2⟩) :=
      List.pairwise_iff_get.mp hs ⟨4294967295, h1⟩ ⟨4294967296, h2⟩ (by simp)
    have : (4294967295 : Nat) ≤ 0 := by
      have := hle
      unfold numLE at this
      omega
    omega
  intro j hj
  have hji := (denseFrom_iff b 0).mp hd j hj
  rwa [Nat.zero_add, Nat.mod_eq_of_lt (lt_of_lt_of_le hj hlen)] at hji

theorem dense_sorted_map (b : List Frame) (hs : b.Pairwise numLE)
    (hd : denseFrom 0 b = true) :
    b.map (fun f => f.seq.num) = List.range b.length := by
  apply List.ext_get (by simp)
  intro i h1 h2
  have h3 : i < b.length := by simpa using h1
  have h4 := dense_sorted_get b hs hd i h3
  simp only [List.get_eq_getElem] at h4
  simp [h4]

theorem joinCheck_parked_of_dup (now : Nat) (b : List Frame) (hs : b.Pairwise numLE)
    (hdup : hasDupNum b) : joinCheck now b = .parked := by
  cases b with
  | nil => simp [hasDupNum] at hdup
  | cons f rest =>
    have hdense : denseFrom 0 (f :: rest) ≠ true := by
      intro hd
      exact hdup (by rw [dense_sorted_map _ hs hd]; exact List.nodup_range _)
    simp only [joinCheck]
    by_cases hlast : ((f :: rest).getLast (List.cons_ne_nil f rest)).seq.next.isSome
    · rw [if_pos hlast]
    · rw [if_neg hlast, if_neg hdense]

/- ---------------------------------------------------------------------
   Helper lemmas: duplicate sequence numbers
--------------------------------------------------------------------- -/

theorem hasDupNum_perm {l l' : List Frame} (h : l.Perm l') :
    hasDupNum l ↔ hasDupNum l' := by
  unfold hasDupNum
  rw [(h.map (fun f => f.seq.num)).nodup_iff]

theorem hasDupNum_append (l l' : List Frame) (h : hasDupNum l) :
    hasDupNum (l ++ l') := by
  unfold hasDupNum at h ⊢
  intro hnd
  rw [List.map_append] at hnd
  exact h hnd.of_append_left

theorem feedAll_parked_of_dup (now : Nat) :
    ∀ (feeds buf : List Frame), hasDupNum buf →
      (∀ r ∈ (feedAll now buf feeds).2, r = JoinResult.parked) ∧
        hasDupNum (feedAll now buf feeds).1
  | [], buf, hdup => ⟨by simp [feedAll], by simpa [feedAll] using hdup⟩
  | f :: rest, buf, hdup => by
    have hdup2 : hasDupNum (sortByNum (buf ++ [f])) :=
      (hasDupNum_perm (sortByNum_perm (buf ++ [f]))).mpr (hasDupNum_append buf [f] hdup)
    have hstep : joinCheck now (sortByNum (buf ++ [f])) = JoinResult.parked :=
      joinCheck_parked_of_dup now _ (sortByNum_sorted _) hdup2
    obtain ⟨ihall, ihdup⟩ := feedAll_parked_of_dup now rest (sortByNum (buf ++ [f])) hdup2
    constructor
    · intro r hr
      simp only [feedAll, joinFrames, List.mem_cons] at hr
      rcases hr with rfl | hr
      · exact hstep
      · exact ihall r hr
    · simpa only [feedAll, joinFrames] using ihdup

/- ---------------------------------------------------------------------
   Helper lemmas: bincode round trip
--------------------------------------------------------------------- -/

theorem decBytes_encBytes (l rest : List Nat) :
    decBytes (encBytes l ++ rest) = some (l, rest) := by
  simp only [encBytes, List.cons_append, decBytes]
  rw [if_pos (by simp)]
  simp [List.take_left, List.drop_left]

theorem bincode_roundtrip (p : Payload) :
    bincodeDeserialize (bincodeSerialize p) = some p := by
  obtain ⟨pl, ⟨sent, recv⟩, sign⟩ := p
  simp only [bincodeSerialize, bincodeDeserialize]
  rw [List.append_assoc, decBytes_encBytes]
  have hsign : decBytes (encBytes sign) = some (sign, []) := by
    have := decBytes_encBytes sign []
    simpa using this
  cases recv with
  | none => simp [encOptNat, decOptNat, hsign]
  | some x => simp [encOptNat, decOptNat, hsign]

/- ---------------------------------------------------------------------
   Helper lemmas: journal
--------------------------------------------------------------------- -/

theorem journal_mem_apply (s : Identity) :
    ∀ (ops : List JournalOp) (j : Journal), s ∈ j.known → s ∈ (j.apply ops).known
  | [], _, h => h
  | .queue _ :: rest, j, h => journal_mem_apply s rest j h
  | .save fid :: rest, j, h =>
    journal_mem_apply s rest (j.save fid) (Finset.mem_insert_of_mem h)

/- ---------------------------------------------------------------------
   Helper lemmas: reassembly of a complete permutation
--------------------------------------------------------------------- -/

theorem perm_map_nodup_eq {α β : Type} (f : α → β) :
    ∀ l₁ l₂ : List α, l₁.Perm l₂ → l₁.map f = l₂.map f → (l₂.map f).Nodup → l₁ = l₂ := by
  intro l₁
  induction l₁ with
  | nil =>
    intro l₂ hp _ _
    exact (List.Perm.eq_nil hp.symm).symm
  | cons a t₁ ih =>
    intro l₂ hp hm hnd
    cases l₂ with
    | nil =>
      have := hp.length_eq
      simp at this
    | cons b t₂ =>
      simp only [List.map_cons, List.cons.injEq] at hm
      obtain ⟨hab, htl⟩ := hm
      by_cases hEq : a = b
      · subst hEq
        rw [ih t₂ hp.cons_inv htl (List.nodup_cons.mp hnd).2]
      · exfalso
        have ha2 : a ∈ b :: t₂ := hp.subset (List.mem_cons_self a t₁)
        have hat2 : a ∈ t₂ := by
          rcases List.mem_cons.mp ha2 with h | h
          · exact absurd h hEq
          · exact h
        have hfa : f a ∈ t₂.map f := List.mem_map_of_mem f hat2
        rw [hab] at hfa
        exact (List.nodup_cons.mp hnd).1 hfa

theorem frames_map_num (frames : List Frame) (sid : Identity)
    (hseq : ∀ i (h : i < frames.length), (frames.get ⟨i, h⟩).seq =
      ⟨sid, i, if i = frames.length - 1 then none else some sid⟩) :
    frames.map (fun f => f.seq.num) = List.range frames.length := by
  apply List.ext_get (by simp)
  intro i h1 h2
  have h3 : i < frames.length := by simpa using h1
  have h4 := hseq i h3
  have h5 : (frames.get ⟨i, h3⟩).seq.num = i := by rw [h4]
  simp only [List.get_eq_getElem] at h5
  simp [h5]

theorem joinCheck_completes (now : Nat) (frames : List Frame) (sid s0 : Identity)
    (r0 : Recipient) (P : Payload)
    (hne : frames ≠ [])
    (h32 : frames.length ≤ 4294967296)
    (hseq : ∀ i (h : i < frames.length), (frames.get ⟨i, h⟩).seq =
      ⟨sid, i, if i = frames.length - 1 then none else some sid⟩)
    (hsend : ∀ f ∈ frames, f.sender = s0)
    (hrecip : ∀ f ∈ frames, f.recipient = r0)
    (hpl : (frames.map (fun f => f.payload)).flatten = bincodeSerialize P)
    (b : List Frame) (hbs : b.Pairwise numLE) (hbp : b.Perm frames) :
    joinCheck now b =
      .completed ⟨sid, s0, r0, P.payload, P.timesig.receive now, P.sign⟩ := by
  -- the sorted permutation of the canonical frame list is the list itself
  have hmapf := frames_map_num frames sid hseq
  have hmapb : b.map (fun f => f.seq.num) = frames.map (fun f => f.seq.num) := by
    have hsort1 : (b.map (fun f => f.seq.num)).Sorted (· ≤ ·) :=
      List.Pairwise.map (fun fr : Frame => fr.seq.num) (fun _ _ h => h) hbs
    have hsort2 : (frames.map (fun f => f.seq.num)).Sorted (· ≤ ·) := by
      rw [hmapf]
      exact (List.pairwise_lt_range frames.length).imp Nat.le_of_lt
    exact List.eq_of_perm_of_sorted (hbp.map (fun f => f.seq.num)) hsort1 hsort2
  have hbf : b = frames := by
    refine perm_map_nodup_eq (fun f => f.seq.num) b frames hbp hmapb ?_
    rw [hmapf]
    exact List.nodup_range frames.length
  subst hbf
  clear hbp hbs hmapb
  obtain ⟨first, rest, rfl⟩ := List.exists_cons_of_ne_nil hne
  -- the terminal frame is the last buffered frame
  have hlast : ((first :: rest).getLast (List.cons_ne_nil first rest)).seq.next = none := by
    rw [List.getLast_eq_get]
    have hlt : (first :: rest).length - 1 < (first :: rest).length := by simp
    rw [hseq ((first :: rest).length - 1) hlt]
    simp
  -- the dense sequence number property holds
  have hdense : denseFrom 0 (first :: rest) = true := by
    refine (denseFrom_iff (first :: rest) 0).mpr ?_
    intro j hj
    rw [hseq j hj]
    simp only [Nat.zero_add]
    exact (Nat.mod_eq_of_lt (lt_of_lt_of_le hj h32)).symm
  -- header fields come from the first frame
  have h0 : 0 < (first :: rest).length := Nat.succ_pos _
  have hfirst := hseq 0 h0
  have hfid : first.seq.seqid = sid := by
    have : ((first :: rest).get ⟨0, h0⟩).seq.seqid = sid := by rw [hfirst]
    simpa using this
  have hfs : first.sender = s0 := hsend first (List.mem_cons_self first rest)
  have hfr : first.recipient = r0 := hrecip first (List.mem_cons_self first rest)
  have hdeser :
      bincodeDeserialize (SeqBuilder.restore (first :: rest)) = some P := by
    rw [show SeqBuilder.restore (first :: rest) = bincodeSerialize P from hpl]
    exact bincode_roundtrip P
  simp only [joinCheck]
  rw [hlast]
  simp only [Option.isSome_none, Bool.false_eq_true, if_false]
  rw [if_pos hdense, hdeser]
  simp [hfid, hfs, hfr]

theorem joinCheck_parks (now : Nat) (frames : List Frame) (sid : Identity)
    (hseq : ∀ i (h : i < frames.length), (frames.get ⟨i, h⟩).seq =
      ⟨sid, i, if i = frames.length - 1 then none else some sid⟩)
    (b : List Frame) (hbs : b.Pairwise numLE) (hne : b ≠ [])
    (hmem : ∀ f ∈ b, f ∈ frames) (hlen : b.length < frames.length) :
    joinCheck now b = .parked := by
  obtain ⟨first, rest, rfl⟩ := List.exists_cons_of_ne_nil hne
  simp only [joinCheck]
  cases hnext : ((first :: rest).getLast (List.cons_ne_nil first rest)).seq.next with
  | some x => simp
  | none =>
    simp only [Option.isSome_none, Bool.false_eq_true, if_false]
    -- the terminal frame of the whole sequence is already buffered
    have hLf : (first :: rest).getLast (List.cons_ne_nil first rest) ∈ frames :=
      hmem _ (List.getLast_mem _)
    obtain ⟨⟨i, hi⟩, hgi⟩ := List.mem_iff_get.mp hLf
    have hseqi := hseq i hi
    have hnum :
        ((first :: rest).getLast (List.cons_ne_nil first rest)).seq.num =
          frames.length - 1 := by
      by_cases hend : i = frames.length - 1
      · rw [← hgi, hseqi]
        simpa using hend
      · exfalso
        rw [← hgi, hseqi] at hnext
        simp [hend] at hnext
    cases hdf : denseFrom 0 (first :: rest) with
    | false => simp
    | true =>
      exfalso
      have hlt : (first :: rest).length - 1 < (first :: rest).length := by simp
      have hgl := dense_sorted_get (first :: rest) hbs hdf ((first :: rest).length - 1) hlt
      rw [← List.getLast_eq_get] at hgl
      rw [hnum] at hgl
      have hb1 : 1 ≤ (first :: rest).length := Nat.succ_le_of_lt (Nat.succ_pos _)
      omega

theorem feedAll_cons (now : Nat) (buf : List Frame) (f : Frame) (rest : List Frame) :
    (feedAll now buf (f :: rest)).2 =
      (joinFrames now buf f).2 :: (feedAll now (joinFrames now buf f).1 rest).2 := rfl

theorem feedAll_run (now : Nat) (frames : List Frame) (sid s0 : Identity)
    (r0 : Recipient) (P : Payload)
    (h32 : frames.length ≤ 4294967296)
    (hseq : ∀ i (h : i < frames.length), (frames.get ⟨i, h⟩).seq =
      ⟨sid, i, if i = frames.length - 1 then none else some sid⟩)
    (hsend : ∀ f ∈ frames, f.sender = s0)
    (hrecip : ∀ f ∈ frames, f.recipient = r0)
    (hpl : (frames.map (fun f => f.payload)).flatten = bincodeSerialize P) :
    ∀ (todo buf fed : List Frame), todo ≠ [] → buf.Perm fed → buf.Pairwise numLE →
      (fed ++ todo).Perm frames →
      (feedAll now buf todo).2 =
        List.replicate (todo.length - 1) JoinResult.parked ++
          [JoinResult.completed ⟨sid, s0, r0, P.payload, P.timesig.receive now, P.sign⟩] := by
  intro todo
  induction todo with
  | nil => intro buf fed hne; exact absurd rfl hne
  | cons f rest ih =>
    intro buf fed _ hbp hbs hfr
    have hb2p : (sortByNum (buf ++ [f])).Perm (fed ++ [f]) :=
      (sortByNum_perm (buf ++ [f])).trans (hbp.append_right [f])
    have hb2s : (sortByNum (buf ++ [f])).Pairwise numLE := sortByNum_sorted _
    have hassoc : ((fed ++ [f]) ++ rest).Perm frames := by
      rw [List.append_assoc]
      exact hfr
    cases rest with
    | nil =>
      have hcomplete : (fed ++ [f]).Perm frames := by simpa using hassoc
      have hneF : frames ≠ [] := by
        intro h
        subst h
        have := hcomplete.length_eq
        simp at this
      have hstep :
          joinCheck now (sortByNum (buf ++ [f])) =
            .completed ⟨sid, s0, r0, P.payload, P.timesig.receive now, P.sign⟩ :=
        joinCheck_completes now frames sid s0 r0 P hneF h32 hseq hsend hrecip hpl
          (sortByNum (buf ++ [f])) hb2s (hb2p.trans hcomplete)
      simp [feedAll, joinFrames, hstep]
    | cons g rest' =>
      have hmem : ∀ x ∈ sortByNum (buf ++ [f]), x ∈ frames := by
        intro x hx
        have hx2 : x ∈ fed ++ [f] := hb2p.subset hx
        exact hassoc.subset (List.mem_append_left (g :: rest') hx2)
      have hlenb : (sortByNum (buf ++ [f])).length < frames.length := by
        have e1 : (sortByNum (buf ++ [f])).length = (fed ++ [f]).length := hb2p.length_eq
        have e2 : ((fed ++ [f]) ++ g :: rest').length = frames.length := hassoc.length_eq
        simp only [List.length_append, List.length_cons] at e1 e2
        omega
      have hneb : sortByNum (buf ++ [f]) ≠ [] := by
        intro h
        rw [h] at hlenb
        have e1 : (sortByNum (buf ++ [f])).length = (fed ++ [f]).length := hb2p.length_eq
        rw [h] at e1
        simp at e1
      have hstep : joinCheck now (sortByNum (buf ++ [f])) = .parked :=
        joinCheck_parks now frames sid hseq (sortByNum (buf ++ [f])) hb2s hneb hmem hlenb
      have hrest := ih (sortByNum (buf ++ [f])) (fed ++ [f]) (List.cons_ne_nil g rest')
        hb2p hb2s hassoc
      have hgoal :
          (feedAll now buf (f :: g :: rest')).2 =
            JoinResult.parked :: (feedAll now (sortByNum (buf ++ [f])) (g :: rest')).2 := by
        rw [feedAll_cons]
        simp only [joinFrames]
        rw [hstep]
      rw [hgoal, hrest]
      simp [List.replicate_succ]

/- ---------------------------------------------------------------------
   Claim theorems
--------------------------------------------------------------------- -/

/-- C1: for every message M sliced into frames with dense sequence numbers
0..N−1 where only the terminal frame has `seq.next = None`, and for every
permutation of those frames, feeding the frames one at a time into a fresh
collector worker buffer (`join_frames`) yields `None` on every call before the
last frame completes the set, and exactly one completion — on the final call —
whose payload is M's original payload (the deserialisation of the
ascending-`num` concatenation of the frame payloads). -/
theorem C1_permutation_reassembly (now : Nat) (frames perm : List Frame)
    (sid s0 : Identity) (r0 : Recipient) (P : Payload)
    (hne : frames ≠ [])
    (h32 : frames.length ≤ 4294967296)
    (hseq : ∀ i (h : i < frames.length), (frames.get ⟨i, h⟩).seq =
      ⟨sid, i, if i = frames.length - 1 then none else some sid⟩)
    (hsend : ∀ f ∈ frames, f.sender = s0)
    (hrecip : ∀ f ∈ frames, f.recipient = r0)
    (hpl : (frames.map (fun f => f.payload)).flatten = bincodeSerialize P)
    (hperm : perm.Perm frames) :
    (feedAll now [] perm).2 =
      List.replicate (frames.length - 1) JoinResult.parked ++
        [JoinResult.completed ⟨sid, s0, r0, P.payload, P.timesig.receive now, P.sign⟩] := by
  have hlen : perm.length = frames.length := hperm.length_eq
  have hpne : perm ≠ [] := by
    intro h
    rw [h] at hlen
    exact hne (List.length_eq_zero.mp hlen.symm)
  have hrun := feedAll_run now frames sid s0 r0 P h32 hseq hsend hrecip hpl perm [] []
    hpne (List.Perm.refl []) List.Pairwise.nil (by simpa using hperm)
  rw [hrun, hlen]

/-- Witness for C1: a concrete two-frame message fed in reversed order parks
once and then completes with the original payload. -/
theorem C1_witness :
    (feedAll 0 [] [wfB, wfA]).2 =
      List.replicate ([wfA, wfB].length - 1) JoinResult.parked ++
        [JoinResult.completed
          ⟨5, 1, Recipient.user 2, PC1.payload, PC1.timesig.receive 0, PC1.sign⟩] :=
  C1_permutation_reassembly 0 [wfA, wfB] [wfB, wfA] 5 1 (Recipient.user 2) PC1
    (by decide) (by decide) (by decide) (by decide) (by decide) (by decide) (by decide)

/-- C2 counterexample: feeding frame 1 of a three-frame sequence twice, then
frames 0 and 2 (scenario S4), produces zero completions, while the
non-duplicated feed of the same frames produces exactly one — so the claim
that the duplicate is discarded and the sequence still completes once is
false on `join_frames`. -/
theorem C2_counterexample :
    countCompletions (feedAll 0 [] [fC2b, fC2b, fC2a, fC2c]).2 = 0 ∧
      countCompletions (feedAll 0 [] [fC2b, fC2a, fC2c]).2 = 1 := by decide

/-- C2 (amended): `join_frames` keeps duplicate frames — once the worker
buffer holds two frames with the same `seq.num`, every subsequent call
returns `None` and the buffer retains the duplicate, so the sequence never
completes (zero completions rather than one). -/
theorem C2_duplicate_never_completes (now : Nat) (buf feeds : List Frame)
    (hdup : hasDupNum buf) :
    countCompletions (feedAll now buf feeds).2 = 0 ∧
      hasDupNum (feedAll now buf feeds).1 := by
  obtain ⟨hall, hdup2⟩ := feedAll_parked_of_dup now feeds buf hdup
  refine ⟨?_, hdup2⟩
  unfold countCompletions
  refine List.countP_eq_zero.mpr ?_
  intro r hr
  rw [hall r hr]
  simp

/-- Witness for C2 (amended): with frame 1 already buffered twice, feeding
the remaining frames 0 and 2 never completes the sequence. -/
theorem C2_witness :
    countCompletions (feedAll 0 [fC2b, fC2b] [fC2a, fC2c]).2 = 0 :=
  (C2_duplicate_never_completes 0 [fC2b, fC2b] [fC2a, fC2c] (by unfold hasDupNum; decide)).1

/-- C3: a complete single-frame set whose concatenated payload (the empty
byte string) fails to deserialise is not handled as a logged protocol error —
the `.unwrap()` on `bincode::deserialize` panics, so the ingest call fails
instead of dropping the worker gracefully. -/
theorem C3_deserialize_failure_panics :
    bincodeDeserialize (SeqBuilder.restore [fC3]) = none ∧
      (joinFrames 0 [] fC3).2 = JoinResult.panicked := by decide

/-- C4: `Journal::queue` has an empty body, so after `queue(f)` the frame's
seqid is still unknown — `queue` does not admit the seqid the way `save`
does. -/
theorem C4_queue_does_not_admit :
    (Journal.empty.queue frJ).unknown frJ.seq.seqid = true ∧
      (Journal.empty.save frJ.seq.seqid).unknown frJ.seq.seqid = false := by decide

/-- C8: a never-observed seqid is unknown; after `save(s)` it is no longer
unknown, and it stays known across any further sequence of journal
operations (insertion-only, no eviction). -/
theorem C8_journal_save_permanent (s : Identity) (j : Journal) (ops : List JournalOp) :
    Journal.empty.unknown s = true ∧
      (j.save s).unknown s = false ∧
      ((j.save s).apply ops).unknown s = false := by
  refine ⟨by simp [Journal.unknown, Journal.empty], ?_, ?_⟩
  · simp [Journal.unknown, Journal.save]
  · have hmem : s ∈ ((j.save s).apply ops).known :=
      journal_mem_apply s ops (j.save s) (by simp [Journal.save])
    simp [Journal.unknown, hmem]

/-- C5: on a `Data` envelope the receive loop calls
`table.id(peer).unwrap()` — a source peer absent from the address table
panics the receive task rather than being dropped silently, while a known
peer's frame is appended to the inbox as `(frame, Single(peer-id))` with a
wake. -/
theorem C5_unknown_peer_panics :
    incomingData ([] : AddrTable) [] peerK frU = DataStep.panicked ∧
      incomingData ([(peerK, 7)] : AddrTable) [] peerK frU =
        DataStep.ok [⟨frU, Target.single 7⟩] true := by decide

/-- C6: the authentication handshake follows the spec table —
`setup{ONLINE, id, token}` brings that id online and acks it;
`setup{ONLINE}` with neither id nor token registers and brings online a
fresh identity and acks it; `setup{ANONYMOUS}` is accepted with no id; every
other first message fails with `InvalidAuth`. -/
theorem C6_handle_auth_table (r : Router) (fid : Identity) :
    (∀ id tok, handle_auth r fid (some (.setup ⟨.online, some id, some tok⟩)) =
        ⟨.ok (some (id, [])), (r.addUser id).setOnline id, [id]⟩) ∧
      handle_auth r fid (some (.setup ⟨.online, none, none⟩)) =
        ⟨.ok (some (fid, [])), (r.addUser fid).setOnline fid, [fid]⟩ ∧
      (∀ iop tkn, handle_auth r fid (some (.setup ⟨.anonymous, iop, tkn⟩)) =
        ⟨.ok none, r, []⟩) ∧
      (∀ msg, authAccepted msg = false →
        (handle_auth r fid msg).result = Except.error ParseError.invalidAuth) := by
  refine ⟨fun id tok => rfl, rfl, fun iop tkn => rfl, ?_⟩
  intro msg h
  match msg with
  | none => rfl
  | some (.send p) => rfl
  | some (.recv p) => rfl
  | some (.peers p) => rfl
  | some (.setup ⟨ft, iop, tkn⟩) =>
    cases ft with
    | online =>
      cases iop with
      | some i =>
        cases tkn with
        | some t => simp [authAccepted] at h
        | none => rfl
      | none =>
        cases tkn with
        | some t => rfl
        | none => simp [authAccepted] at h
    | anonymous => simp [authAccepted] at h
    | onlineAck => rfl

/-- Witness for C6: a first message with an id but no token is rejected with
`InvalidAuth`. -/
theorem C6_witness :
    (handle_auth ⟨∅, ∅⟩ 9 (some (.setup ⟨.online, some 3, none⟩))).result =
      Except.error ParseError.invalidAuth :=
  (C6_handle_auth_table ⟨∅, ∅⟩ 9).2.2.2 (some (.setup ⟨.online, some 3, none⟩)) (by decide)

/-- C7: the relay forwards each delivered message to exactly the right
sessions — `User(id)` online: only that session; `Flood`: every online
session; and the set of attempted writes does not depend on which writes
fail (a failure is only logged, the remaining sessions still get the
envelope). -/
theorem C7_relay_routing (online : OnlineMap) (writeOk : Nat → Bool) (m : Message) :
    (∀ id s, m.recipient = Recipient.user id → online.get id = some s →
        relayStep online writeOk m =
          ([(s, buildReceive m)], if writeOk s then [] else [s])) ∧
      (m.recipient = Recipient.flood →
        relayStep online writeOk m =
          (online.map (fun e => (e.2, buildReceive m)),
            (online.filter (fun e => !writeOk e.2)).map (fun e => e.2))) ∧
      (∀ g : Nat → Bool, (relayStep online g m).1 = (relayStep online writeOk m).1) := by
  refine ⟨?_, ?_, ?_⟩
  · intro id s hrec hget
    simp [relayStep, hrec, hget]
  · intro hrec
    simp [relayStep, hrec]
  · intro g
    cases hrec : m.recipient with
    | user id =>
      cases hget : online.get id with
      | some s => simp [relayStep, hrec, hget]
      | none => simp [relayStep, hrec, hget]
    | flood => simp [relayStep, hrec]

/-- Witness for C7: a message for online user 4 is written only to session
11, and the failed write is logged. -/
theorem C7_witness :
    relayStep [(4, 11)] (fun _ => false) mC7 = ([(11, buildReceive mC7)], [11]) :=
  (C7_relay_routing [(4, 11)] (fun _ => false) mC7).1 4 11 rfl rfl

/-- C9: a completed message for a user with no entry in the online map is
forwarded to no session and simply discarded — nothing is written, nothing is
logged, no error and no buffering. -/
theorem C9_relay_offline_discard (online : OnlineMap) (writeOk : Nat → Bool)
    (m : Message) (id : Identity) (hrec : m.recipient = Recipient.user id)
    (hnone : online.get id = none) :
    relayStep online writeOk m = ([], []) := by
  simp [relayStep, hrec, hnone]

/-- Witness for C9: a message for user 7 with an empty online map is
discarded. -/
theorem C9_witness : relayStep ([] : OnlineMap) (fun _ => true) mC9 = ([], []) :=
  C9_relay_offline_discard [] (fun _ => true) mC9 7 rfl rfl

/-- C10: the symmetric cipher wrapper round-trips — under the external
primitive contract (decrypting with the same nonce and key inverts
encryption) and the codec contract of the `Encode`/`Decode` traits,
`open(seal(d))` returns `Ok(d)` for whatever nonce `seal` generated, the
nonce being carried inside the returned `CipherText`. -/
theorem C10_seal_open_roundtrip {K T : Type} (c : SymCipher K)
    (encode : T → Except AlexError (List Nat)) (decode : List Nat → Except AlexError T)
    (key : K) (nonce : List Nat) (d : T) (e : List Nat)
    (hnonce : nonce.length = 24)
    (henc : encode d = Except.ok e)
    (hdec : decode e = Except.ok d)
    (hcrypt : c.openBytes (c.sealBytes e nonce key) nonce key = some e) :
    Key.seal c encode key nonce d = Except.ok ⟨nonce, c.sealBytes e nonce key⟩ ∧
      Key.open' c decode key ⟨nonce, c.sealBytes e nonce key⟩ = Except.ok d := by
  constructor
  · simp [Key.seal, henc]
  · simp [Key.open', Nonce.from_slice, hnonce, hcrypt, hdec]

/-- Witness for C10: the toy cipher with identity codec round-trips a
concrete value under a 24-byte nonce. -/
theorem C10_witness :
    Key.seal cipherW Except.ok () (List.replicate 24 0) [1, 2, 3] =
        Except.ok ⟨List.replicate 24 0, [3, 2, 1]⟩ ∧
      Key.open' cipherW Except.ok () ⟨List.replicate 24 0, [3, 2, 1]⟩ =
        Except.ok [1, 2, 3] :=
  C10_seal_open_roundtrip cipherW Except.ok Except.ok () (List.replicate 24 0)
    [1, 2, 3] [1, 2, 3] (by decide) rfl rfl (by decide)

end Irdest
